import Mathlib

/-!
Verification of the converter subsystem of `yeelight_pro`
(`custom_components/yeelight_pro/core/converters/base.py`).

The Python converters mutate a `payload` dict; we embed payloads as
insertion-ordered association lists (`List (String × α)`) with Python
`dict` semantics: assignment replaces the value at an existing key in
place, otherwise appends; `dict.update` / `{**d}` merging is a left fold
of assignments, so a later duplicate key overwrites an earlier one.

Python numeric conversions used by the converters:
  - `int(x)` on a float truncates toward zero (`pyInt`);
  - `round(x)` on a float rounds half to even (`pyRound`).
The source computes with IEEE doubles; we compute with exact rationals.
At every value the theorems below touch, the double computation and the
exact rational computation round identically (the intermediate results
are either exactly representable or farther from a rounding boundary
than the double's error), so the rational model is faithful there.

Fallible operations are embedded as `Except PyExc`; `PyExc` mirrors the
CPython exception classes the source can raise.  In CPython's hierarchy
`LookupError` is the base of `IndexError` and `KeyError`, while
`StopIteration` (raised by `next` on an exhausted iterator) and
`ZeroDivisionError` derive from `Exception` directly, not from
`LookupError`.
-/

/-- Exception classes that the converter code can raise, plus the
`LookupError` family for classification. -/
inductive PyExc where
  | stopIteration
  | zeroDivisionError
  | lookupError
  | indexError
  | keyError
deriving DecidableEq

/-- Whether an exception is a `LookupError` in CPython's class hierarchy
(`LookupError` itself, `IndexError`, `KeyError`).  `StopIteration` and
`ZeroDivisionError` are not. -/
def PyExc.isLookupError : PyExc → Bool
  | .lookupError => true
  | .indexError => true
  | .keyError => true
  | _ => false

/-- Python `int(x)`: truncation toward zero. -/
def pyInt (q : ℚ) : ℤ :=
  if 0 ≤ q then ⌊q⌋ else -⌊-q⌋

/-- Python `round(x)` with one argument: round half to even. -/
def pyRound (q : ℚ) : ℤ :=
  if q - ⌊q⌋ < 1/2 then ⌊q⌋
  else if 1/2 < q - ⌊q⌋ then ⌊q⌋ + 1
  else if 2 ∣ ⌊q⌋ then ⌊q⌋ else ⌊q⌋ + 1

/-- Python `d[k] = x` on an insertion-ordered dict: replace in place if
the key exists, else append. -/
def dictSet {α : Type} : List (String × α) → String → α → List (String × α)
  | [], k, x => [(k, x)]
  | (k₀, v₀) :: rest, k, x =>
      if k₀ = k then (k, x) :: rest else (k₀, v₀) :: dictSet rest k x

/-- Python `d.get(k)`: value at the first occurrence of `k`, if any. -/
def dictGet {α : Type} : List (String × α) → String → Option α
  | [], _ => Option.none
  | (k₀, v₀) :: rest, k => if k₀ = k then some v₀ else dictGet rest k

/-- Python `d.update(l)` (also `{**l}` merging): assign each pair in
order; a later duplicate key overwrites an earlier one. -/
def dictUpdate {α : Type} (d : List (String × α)) (l : List (String × α)) :
    List (String × α) :=
  l.foldl (fun acc p => dictSet acc p.1 p.2) d


/-- Values that appear in the event payloads handled by `EventConv`. -/
inductive PyVal where
  | int (n : ℤ)
  | str (s : String)
  | bool (b : Bool)
  | none
deriving DecidableEq

/-- Whether a value is Python's `None` (the `is None` / `is not None` test). -/
def PyVal.isNone : PyVal → Bool
  | .none => true
  | _ => false

/-- Python `==` on the payload values, including the numeric
`bool`/`int` cross-type equality (`False == 0`, `True == 1`). -/
def pyEq : PyVal → PyVal → Bool
  | .int a, .int b => a = b
  | .str a, .str b => a = b
  | .bool a, .bool b => a = b
  | .bool a, .int b => (if a then (1 : ℤ) else 0) = b
  | .int a, .bool b => a = (if b then (1 : ℤ) else 0)
  | .none, .none => true
  | _, _ => false

/-- Python `str()` / f-string rendering of a payload value. -/
def pyStr : PyVal → String
  | .int n => toString n
  | .str s => s
  | .bool b => if b then "True" else "False"
  | .none => "None"

/-- An event payload dict. -/
abbrev PyDict : Type := List (String × PyVal)

/-- Split a character list at the first occurrence of `sep`:
`some (prefixPart, suffixPart)` when `sep` occurs, else `none`. -/
def splitFirst (sep : Char) : List Char → Option (List Char × List Char)
  | [] => Option.none
  | c :: cs =>
      if c = sep then some ([], cs)
      else
        match splitFirst sep cs with
        | some (pre, post) => some (c :: pre, post)
        | Option.none => Option.none

/-- Source lines 132-134: `key, val = self.attr, None`, then when the
attribute contains a dot, `key, val = self.attr.split` at the first dot
(Python `split` with `maxsplit=1`). -/
def splitAttr (attr : String) : String × Option String :=
  match splitFirst '.' attr.data with
  | some (pre, post) => (String.mk pre, some (String.mk post))
  | Option.none => (attr, Option.none)

/-- Base `Converter.decode` (line 23-24): `payload[self.attr] = value`. -/
def Converter.decode {α : Type} (attr : String) (payload : List (String × α)) (value : α) :
    List (String × α) :=
  dictSet payload attr value

/-- Base `Converter.encode` (line 26-27):
`payload[self.prop or self.attr] = value`. -/
def Converter.encode {α : Type} (prop : Option String) (attr : String)
    (payload : List (String × α)) (value : α) : List (String × α) :=
  dictSet payload (prop.getD attr) value

/-- Base `Converter.read` (line 29-32): `None` when `prop` is unset, else
`payload.get(self.prop, None)`. -/
def Converter.read {α : Type} (prop : Option String) (payload : List (String × α)) :
    Option α :=
  match prop with
  | Option.none => Option.none
  | some pr => dictGet payload pr

/-- `MapConv.encode` reverse lookup (line 51):
`next(k for k, v in self.map.items() if v == value)` — the first key in
insertion order whose mapped value equals `value`; `next` on an
exhausted generator raises `StopIteration`. -/
def MapConv.reverseLookup {κ ν : Type} [DecidableEq ν] (map : List (κ × ν)) (value : ν) :
    Except PyExc κ :=
  match map.find? (fun p => p.2 = value) with
  | some p => Except.ok p.1
  | Option.none => Except.error PyExc.stopIteration

/-- `MapConv.encode` (lines 50-52): reverse-lookup then base encode. -/
def MapConv.encode {κ : Type} (map : List (κ × String)) (prop : Option String)
    (attr : String) (payload : List (String × κ)) (value : String) :
    Except PyExc (List (String × κ)) :=
  match MapConv.reverseLookup map value with
  | Except.ok k => Except.ok (Converter.encode prop attr payload k)
  | Except.error e => Except.error e

/-- `MapConv.decode` (lines 47-48): `payload[self.attr] = self.map.get(value)`
(stores `None` when the vendor value is not a key). -/
def MapConv.decode {κ ν : Type} [DecidableEq κ] (map : List (κ × ν)) (attr : String)
    (payload : List (String × Option ν)) (value : κ) : List (String × Option ν) :=
  dictSet payload attr ((map.find? (fun p => p.1 = value)).map Prod.snd)

/-- `DurationConv.decode` (lines 62-64): when `readable` and the value is
present, `payload[self.attr] = int(float(value) / 1000)`. -/
def DurationConv.decode (readable : Bool) (attr : String) (payload : List (String × ℤ))
    (value : Option ℚ) : List (String × ℤ) :=
  match value with
  | some v => if readable then Converter.decode attr payload (pyInt (v / 1000)) else payload
  | Option.none => payload

/-- `DurationConv.encode` (lines 66-68): when the value is present,
base-encode `int(float(value) * 1000)`. -/
def DurationConv.encode (prop : Option String) (attr : String)
    (payload : List (String × ℤ)) (value : Option ℚ) : List (String × ℤ) :=
  match value with
  | some v => Converter.encode prop attr payload (pyInt (v * 1000))
  | Option.none => payload

/-- `BrightnessConv.decode` value computation (line 88):
`round(value / self.max * 255.0)`. -/
def BrightnessConv.decodeVal (mx : ℚ) (value : ℚ) : ℤ :=
  pyRound (value / mx * 255)

/-- `BrightnessConv.encode` value computation (lines 91-92):
`int(round(value / 255.0 * self.max))`; `round` already yields an
integer, so the `int` cast is the identity. -/
def BrightnessConv.encodeVal (mx : ℚ) (value : ℚ) : ℤ :=
  pyRound (value / 255 * mx)

/-- `BrightnessConv.decode` (lines 87-88). -/
def BrightnessConv.decode (mx : ℚ) (attr : String) (payload : List (String × ℤ))
    (value : ℚ) : List (String × ℤ) :=
  dictSet payload attr (BrightnessConv.decodeVal mx value)

/-- `BrightnessConv.encode` (lines 90-92). -/
def BrightnessConv.encode (mx : ℚ) (prop : Option String) (attr : String)
    (payload : List (String × ℤ)) (value : ℚ) : List (String × ℤ) :=
  Converter.encode prop attr payload (BrightnessConv.encodeVal mx value)

/-- `ColorTempKelvin.decode` (lines 101-104): `payload[self.attr] =
int(1000000.0 / value)` then `payload[chr 39 ...] = value`; division by a
zero Kelvin value raises `ZeroDivisionError`. -/
def ColorTempKelvin.decode (attr : String) (payload : List (String × ℤ)) (value : ℤ) :
    Except PyExc (List (String × ℤ)) :=
  if value = 0 then Except.error PyExc.zeroDivisionError
  else Except.ok
    (dictSet (dictSet payload attr (pyInt (1000000 / (value : ℚ)))) "color_temp_kelvin" value)

/-- `ColorTempKelvin.encode` (lines 106-112): `value = int(1000000.0 / value)`,
then raise to `mink` if below, cap to `maxk` if above, then base-encode. -/
def ColorTempKelvin.encode (mink maxk : ℤ) (prop : Option String) (attr : String)
    (payload : List (String × ℤ)) (value : ℤ) : Except PyExc (List (String × ℤ)) :=
  if value = 0 then Except.error PyExc.zeroDivisionError
  else
    Except.ok (Converter.encode prop attr payload
      (let m := pyInt (1000000 / (value : ℚ))
       let m1 := if m < mink then mink else m
       if maxk < m1 then maxk else m1))

/-- `ColorRgbConv.decode` bit unpacking (lines 117-119). -/
def ColorRgbConv.decodeVal (value : ℕ) : ℕ × ℕ × ℕ :=
  ((value >>> 16) &&& 0xFF, (value >>> 8) &&& 0xFF, value &&& 0xFF)

/-- `ColorRgbConv.encode` bit packing (line 123). -/
def ColorRgbConv.encodeVal (t : ℕ × ℕ × ℕ) : ℕ :=
  (t.1 <<< 16) ||| (t.2.1 <<< 8) ||| t.2.2

/-- `ColorRgbConv.decode` (lines 116-120). -/
def ColorRgbConv.decode (attr : String) (payload : List (String × (ℕ × ℕ × ℕ)))
    (value : ℕ) : List (String × (ℕ × ℕ × ℕ)) :=
  dictSet payload attr (ColorRgbConv.decodeVal value)

/-- `ColorRgbConv.encode` (lines 122-124). -/
def ColorRgbConv.encode (prop : Option String) (attr : String)
    (payload : List (String × ℕ)) (value : ℕ × ℕ × ℕ) : List (String × ℕ) :=
  Converter.encode prop attr payload (ColorRgbConv.encodeVal value)

/-- The `count`-to-suffix dict lookup in `EventConv.decode` (line 145):
Python dict lookup hashes `True` together with `1`, hence the `pyEq`
comparisons; the default is `val`, the subtype split off `attr`. -/
def pyCntLookup (cnt : PyVal) (dflt : Option String) : Option String :=
  if pyEq cnt (PyVal.int 1) then some "single"
  else if pyEq cnt (PyVal.int 2) then some "double"
  else if pyEq cnt (PyVal.int 3) then some "triple"
  else dflt

/-- The skip test of the knob-spin loop (line 158):
`value.get(typ) in [None, 0]` — absent, `None`, or `== 0`. -/
def EventConv.spinSkip (value : PyDict) (typ : String) : Bool :=
  match dictGet value typ with
  | Option.none => true
  | some x => pyEq x PyVal.none || pyEq x (PyVal.int 0)

/-- `EventConv.decode` (lines 131-164), with its three branches:
motion/contact namespaces, the panel/keyClick button events, and the
knob-spin loop over `free_spin` and `hold_spin`. -/
def EventConv.decode (attr : String) (payload value : PyDict) : PyDict :=
  let kv := splitAttr attr
  if kv.1 = "motion" ∨ kv.1 = "contact" then
    dictUpdate payload
      ((kv.1, PyVal.bool (kv.2 == some "true" || kv.2 == some "open")) :: value)
  else if attr = "panel.click" ∨ attr = "panel.hold" ∨ attr = "panel.release" ∨
      attr = "keyClick" then
    let k := (dictGet value "key").getD (PyVal.str "")
    let cnt := (dictGet value "count").getD PyVal.none
    let typ := if cnt.isNone then kv.2 else pyCntLookup cnt kv.2
    let btn := "button" ++ pyStr k
    let btn :=
      match typ with
      | some s => if s = "" then btn else btn ++ "_" ++ s
      | Option.none => btn
    dictUpdate payload
      (("action", PyVal.str btn) :: ("event", PyVal.str attr) :: ("button", k) :: value)
  else if attr = "knob.spin" then
    List.foldl
      (fun p typ =>
        if EventConv.spinSkip value typ then p
        else
          dictUpdate p
            (("action", PyVal.str typ) :: ("event", PyVal.str attr) :: value))
      payload ["free_spin", "hold_spin"]
  else payload

/-- `IntNormalizationConv._normalize` (lines 206-212): clamp with
`min(max(*from_range), value)` then `max(min(*from_range), ·)`, then the
linear interpolation, truncated by `int()`; a degenerate `from_range`
divides by zero. -/
def IntNormalizationConv.normalize (value : ℤ) (fromRange toRange : ℤ × ℤ) :
    Except PyExc ℤ :=
  let v1 := min (max fromRange.1 fromRange.2) value
  let v2 := max (min fromRange.1 fromRange.2) v1
  if fromRange.2 - fromRange.1 = 0 then Except.error PyExc.zeroDivisionError
  else
    Except.ok (pyInt (((v2 - fromRange.1 : ℤ) : ℚ) / ((fromRange.2 - fromRange.1 : ℤ) : ℚ) *
      ((toRange.2 - toRange.1 : ℤ) : ℚ) + ((toRange.1 : ℤ) : ℚ)))

/-- `IntNormalizationConv.decode` (lines 199-201): base-decode
`_normalize(value, prop_range, attr_range)`. -/
def IntNormalizationConv.decode (attrRange propRange : ℤ × ℤ) (attr : String)
    (payload : List (String × ℤ)) (value : ℤ) : Except PyExc (List (String × ℤ)) :=
  match IntNormalizationConv.normalize value propRange attrRange with
  | Except.ok r => Except.ok (Converter.decode attr payload r)
  | Except.error e => Except.error e

/-- `IntNormalizationConv.encode` (lines 203-204): base-encode
`_normalize(value, attr_range, prop_range)`. -/
def IntNormalizationConv.encode (attrRange propRange : ℤ × ℤ) (prop : Option String)
    (attr : String) (payload : List (String × ℤ)) (value : ℤ) :
    Except PyExc (List (String × ℤ)) :=
  match IntNormalizationConv.normalize value attrRange propRange with
  | Except.ok r => Except.ok (Converter.encode prop attr payload r)
  | Except.error e => Except.error e

/-- Modelled from the spec (section 4.12), for the refinement comparison
in C8: clamp `value` into `[min(from_range), max(from_range)]`
order-independently, then `to.lo + (value - from.lo) / (from.hi - from.lo)
* (to.hi - to.lo)` truncated toward zero; a degenerate range is a
math-domain error. -/
def normalizeSpec (value : ℤ) (fromRange toRange : ℤ × ℤ) : Except PyExc ℤ :=
  if fromRange.1 = fromRange.2 then Except.error PyExc.zeroDivisionError
  else
    Except.ok (pyInt ((toRange.1 : ℚ) +
      (((max (min fromRange.1 fromRange.2) (min (max fromRange.1 fromRange.2) value) -
        fromRange.1 : ℤ) : ℚ) / ((fromRange.2 - fromRange.1 : ℤ) : ℚ)) *
      ((toRange.2 - toRange.1 : ℤ) : ℚ)))

@[simp]
theorem dictGet_dictSet_self {α : Type} (d : List (String × α)) (k : String) (x : α) :
    dictGet (dictSet d k x) k = some x := by
  induction d with
  | nil => simp [dictSet, dictGet]
  | cons p rest ih =>
    obtain ⟨k₀, v₀⟩ := p
    by_cases h : k₀ = k
    · simp [dictSet, h, dictGet]
    · simpa [dictSet, h, dictGet] using ih

theorem dictGet_dictSet_ne {α : Type} (d : List (String × α)) {k k' : String} (x : α)
    (h : k ≠ k') : dictGet (dictSet d k x) k' = dictGet d k' := by
  induction d with
  | nil => simp [dictSet, dictGet, h]
  | cons p rest ih =>
    obtain ⟨k₀, v₀⟩ := p
    by_cases hp : k₀ = k
    · simp [dictSet, hp, dictGet, h]
    · simp [dictSet, hp, dictGet, ih]

@[simp]
theorem dictUpdate_nil {α : Type} (d : List (String × α)) : dictUpdate d [] = d := rfl

theorem dictUpdate_cons {α : Type} (d : List (String × α)) (p : String × α)
    (l : List (String × α)) :
    dictUpdate d (p :: l) = dictUpdate (dictSet d p.1 p.2) l := rfl

theorem dictUpdate_append {α : Type} (d : List (String × α)) (l₁ l₂ : List (String × α)) :
    dictUpdate d (l₁ ++ l₂) = dictUpdate (dictUpdate d l₁) l₂ :=
  List.foldl_append _ _ _ _

theorem dictGet_dictUpdate_of_not_mem {α : Type} (d : List (String × α))
    (l : List (String × α)) {k : String} (h : k ∉ l.map Prod.fst) :
    dictGet (dictUpdate d l) k = dictGet d k := by
  induction l generalizing d with
  | nil => rfl
  | cons p rest ih =>
    simp only [List.map_cons, List.mem_cons] at h
    push_neg at h
    rw [dictUpdate_cons, ih _ h.2, dictGet_dictSet_ne _ _ (fun e => h.1 e.symm)]

theorem dictGet_dictUpdate_last {α : Type} (d : List (String × α))
    (l₁ l₂ : List (String × α)) (k : String) (x : α) (h : k ∉ l₂.map Prod.fst) :
    dictGet (dictUpdate d (l₁ ++ (k, x) :: l₂)) k = some x := by
  rw [dictUpdate_append, dictUpdate_cons, dictGet_dictUpdate_of_not_mem _ _ h]
  exact dictGet_dictSet_self _ _ _

theorem dictGet_eq_some_split {α : Type} {v : List (String × α)} {k : String} {a : α}
    (hnd : (v.map Prod.fst).Nodup) (h : dictGet v k = some a) :
    ∃ v₁ v₂, v = v₁ ++ (k, a) :: v₂ ∧ k ∉ v₂.map Prod.fst := by
  induction v with
  | nil => simp [dictGet] at h
  | cons p rest ih =>
    obtain ⟨k₀, v₀⟩ := p
    simp only [List.map_cons, List.nodup_cons] at hnd
    by_cases hp : k₀ = k
    · subst hp
      simp only [dictGet, if_pos rfl] at h
      cases h
      exact ⟨[], rest, rfl, hnd.1⟩
    · simp only [dictGet, if_neg hp] at h
      obtain ⟨v₁, v₂, hv, hk⟩ := ih hnd.2 h
      exact ⟨(k₀, v₀) :: v₁, v₂, by rw [hv]; rfl, hk⟩

theorem dictGet_eq_none_of_not_mem {α : Type} {v : List (String × α)} {k : String}
    (h : k ∉ v.map Prod.fst) : dictGet v k = Option.none := by
  induction v with
  | nil => rfl
  | cons p rest ih =>
    obtain ⟨k₀, v₀⟩ := p
    simp only [List.map_cons, List.mem_cons] at h
    push_neg at h
    have hne : ¬k₀ = k := fun e => h.1 e.symm
    simp only [dictGet, if_neg hne]
    exact ih h.2

theorem not_mem_of_dictGet_eq_none {α : Type} {v : List (String × α)} {k : String}
    (h : dictGet v k = Option.none) : k ∉ v.map Prod.fst := by
  induction v with
  | nil => simp
  | cons p rest ih =>
    obtain ⟨k₀, v₀⟩ := p
    by_cases hp : k₀ = k
    · simp [dictGet, hp] at h
    · simp only [dictGet, if_neg hp] at h
      simp only [List.map_cons, List.mem_cons]
      push_neg
      exact ⟨fun e => hp e.symm, ih h⟩

/-- C6: decoding attr panel.click with vendor event key "1", count 2 yields
exactly the payload action=button1_double, event=panel.click, button="1",
key="1", count=2; and in general count 1/2/3 yields the _single/_double/
_triple suffix on "button" plus the key. -/
theorem eventConv_panel_click_decode :
    EventConv.decode "panel.click" [] [("key", PyVal.str "1"), ("count", PyVal.int 2)] =
      [("action", PyVal.str "button1_double"), ("event", PyVal.str "panel.click"),
       ("button", PyVal.str "1"), ("key", PyVal.str "1"), ("count", PyVal.int 2)] ∧
    (∀ k : String,
      dictGet (EventConv.decode "panel.click" []
          [("key", PyVal.str k), ("count", PyVal.int 1)]) "action" =
        some (PyVal.str ("button" ++ k ++ "_single")) ∧
      dictGet (EventConv.decode "panel.click" []
          [("key", PyVal.str k), ("count", PyVal.int 2)]) "action" =
        some (PyVal.str ("button" ++ k ++ "_double")) ∧
      dictGet (EventConv.decode "panel.click" []
          [("key", PyVal.str k), ("count", PyVal.int 3)]) "action" =
        some (PyVal.str ("button" ++ k ++ "_triple"))) := by
  refine ⟨by decide, fun k => ⟨?_, ?_, ?_⟩⟩ <;>
    simp [EventConv.decode, splitAttr, splitFirst, dictGet, dictUpdate, dictSet,
      pyCntLookup, pyEq, pyStr, PyVal.isNone, String.append_assoc]

/-- C7: a zero Kelvin value makes ColorTempKelvin encode and decode fail with
the division-by-zero math-domain error, and a degenerate from-range makes
the IntNormalizationConv normalization fail likewise; an error result carries
no payload. -/
theorem mathDomain_failures :
    (∀ (mink maxk : ℤ) (prop : Option String) (attr : String) (p : List (String × ℤ)),
      ColorTempKelvin.encode mink maxk prop attr p 0 = Except.error PyExc.zeroDivisionError) ∧
    (∀ (attr : String) (p : List (String × ℤ)),
      ColorTempKelvin.decode attr p 0 = Except.error PyExc.zeroDivisionError) ∧
    (∀ (value a : ℤ) (toRange : ℤ × ℤ),
      IntNormalizationConv.normalize value (a, a) toRange =
        Except.error PyExc.zeroDivisionError) := by
  refine ⟨fun mink maxk prop attr p => ?_, fun attr p => ?_, fun value a toRange => ?_⟩
  · simp [ColorTempKelvin.encode]
  · simp [ColorTempKelvin.decode]
  · simp [IntNormalizationConv.normalize]

/-- C8: the normalization clamps into the order-independent interval over
from-range, then linearly interpolates and truncates toward zero, exactly as
the spec formula (normalizeSpec) states; with attr-range (0,255) and
prop-range (0,100), decode 50 stores 127 and encode 255 stores 100. -/
theorem intNormalization_matches_spec :
    (∀ (value : ℤ) (fromRange toRange : ℤ × ℤ),
      IntNormalizationConv.normalize value fromRange toRange =
        normalizeSpec value fromRange toRange) ∧
    IntNormalizationConv.decode (0, 255) (0, 100) "level" [] 50 =
      Except.ok [("level", 127)] ∧
    IntNormalizationConv.encode (0, 255) (0, 100) Option.none "level" [] 255 =
      Except.ok [("level", 100)] := by
  refine ⟨fun value fr tr => ?_, ?_, ?_⟩
  · unfold IntNormalizationConv.normalize normalizeSpec
    by_cases h : fr.1 = fr.2
    · simp [h]
    · have h' : ¬(fr.2 - fr.1 = 0) := by omega
      simp only [if_neg h', if_neg h]
      congr 1
      ring_nf
  · norm_num [IntNormalizationConv.decode, IntNormalizationConv.normalize,
      Converter.decode, pyInt, dictSet]
  · norm_num [IntNormalizationConv.encode, IntNormalizationConv.normalize,
      Converter.encode, pyInt, dictSet]

/-- C9 counterexample: the claim says decode stores floor(value/1000) for
every non-None numeric value, but Python int() truncates toward zero:
decode of -1500 stores -1 while floor(-1500/1000) = -2. -/
theorem durationConv_floor_counterexample :
    DurationConv.decode true "delay" [] (some (-1500)) = [("delay", -1)] ∧
    ⌊(-1500 : ℚ) / 1000⌋ = -2 := by
  constructor
  · norm_num [DurationConv.decode, Converter.decode, pyInt, dictSet]
  · norm_num

/-- C9 (amended): decode with readable stores int(value/1000) truncated
toward zero (equal to the floor for nonnegative values), encode stores
int(value*1000); a None value, or readable false on decode, leaves the
payload unchanged; decode 5000 stores 5 and encode 5 stores 5000. -/
theorem durationConv_unit_conversion (readable : Bool) (prop : Option String)
    (attr : String) (p : List (String × ℤ)) (v : ℚ) :
    DurationConv.decode true attr p (some v) = dictSet p attr (pyInt (v / 1000)) ∧
    DurationConv.decode false attr p (some v) = p ∧
    DurationConv.decode readable attr p Option.none = p ∧
    DurationConv.encode prop attr p (some v) =
      dictSet p (prop.getD attr) (pyInt (v * 1000)) ∧
    DurationConv.encode prop attr p Option.none = p ∧
    (0 ≤ v → pyInt (v / 1000) = ⌊v / 1000⌋ ∧ pyInt (v * 1000) = ⌊v * 1000⌋) ∧
    DurationConv.decode true attr p (some 5000) = dictSet p attr 5 ∧
    DurationConv.encode prop attr p (some 5) = dictSet p (prop.getD attr) 5000 := by
  refine ⟨rfl, rfl, by cases readable <;> rfl, rfl, rfl, fun hv => ⟨?_, ?_⟩, ?_, ?_⟩
  · rw [pyInt, if_pos (by positivity)]
  · rw [pyInt, if_pos (by positivity)]
  · norm_num [DurationConv.decode, Converter.decode, pyInt]
  · norm_num [DurationConv.encode, Converter.encode, pyInt]

/-- C9 witness for the hypothesis-bearing conjunct, at v = 2500. -/
theorem durationConv_unit_conversion_witness :
    pyInt ((2500 : ℚ) / 1000) = ⌊(2500 : ℚ) / 1000⌋ :=
  (((durationConv_unit_conversion true Option.none "delay" [] 2500).2.2.2.2.2.1
    (by norm_num)).1)

/-- C1 counterexample: encode 10000 Kelvin converts to mired 100, which is
below mink, so the stored value is mink = 2700, not maxk = 6500 as the
claim asserts. -/
theorem colorTempKelvin_encode_counterexample :
    ColorTempKelvin.encode 2700 6500 Option.none "color_temp" [] 10000 =
      Except.ok [("color_temp", 2700)] ∧ (2700 : ℤ) ≠ 6500 := by
  constructor
  · norm_num [ColorTempKelvin.encode, Converter.encode, pyInt, dictSet]
  · decide

/-- C1 (amended): encode converts Kelvin to mired by floor(1000000/value),
clamps that mired figure into the interval from mink to maxk, and stores the
clamped value under prop-or-attr; with the defaults, encode 10000 stores
mink = 2700. -/
theorem colorTempKelvin_encode_clamps (prop : Option String) (attr : String)
    (p : List (String × ℤ)) (v : ℤ) (hv : 0 < v) :
    ColorTempKelvin.encode 2700 6500 prop attr p v =
      Except.ok (dictSet p (prop.getD attr)
        (min 6500 (max 2700 ⌊(1000000 : ℚ) / (v : ℚ)⌋))) ∧
    ColorTempKelvin.encode 2700 6500 prop attr p 10000 =
      Except.ok (dictSet p (prop.getD attr) 2700) := by
  constructor
  · have hv0 : ¬(v = 0) := by omega
    have hq : (0 : ℚ) ≤ 1000000 / (v : ℚ) := by positivity
    rw [ColorTempKelvin.encode, if_neg hv0]
    simp only [Converter.encode, pyInt, if_pos hq]
    congr 2
    set m := ⌊(1000000 : ℚ) / (v : ℚ)⌋ with hm
    split_ifs <;> omega
  · norm_num [ColorTempKelvin.encode, Converter.encode, pyInt, dictSet]

/-- C1 witness: the amended theorem applied at Kelvin 10000. -/
theorem colorTempKelvin_encode_clamps_witness :
    ColorTempKelvin.encode 2700 6500 Option.none "color_temp" [] 10000 =
      Except.ok (dictSet [] "color_temp"
        (min 6500 (max 2700 ⌊(1000000 : ℚ) / ((10000 : ℤ) : ℚ)⌋))) :=
  (colorTempKelvin_encode_clamps Option.none "color_temp" [] 10000 (by norm_num)).1

/-- C2 counterexample: encoding a platform value with no vendor counterpart
raises StopIteration (from `next` on an exhausted generator), which is not in
the LookupError family, contrary to the claim. -/
theorem mapConv_encode_counterexample :
    MapConv.encode [((1 : ℤ), "low"), (2, "high")] Option.none "mode" [] "unknown" =
      Except.error PyExc.stopIteration ∧
    PyExc.isLookupError PyExc.stopIteration = false := by
  constructor
  · simp [MapConv.encode, MapConv.reverseLookup, List.find?]
  · rfl

/-- C2 (amended): MapConv.encode fails, with StopIteration, exactly when the
platform value does not occur among the map's values; when it occurs, the
first key in the map's insertion order whose value equals it is stored under
prop-or-attr by the base encode. -/
theorem mapConv_encode_reverse_lookup (m : List (ℤ × String)) (prop : Option String)
    (attr : String) (p : List (String × ℤ)) (v : String) :
    (MapConv.encode m prop attr p v = Except.error PyExc.stopIteration ↔
      v ∉ m.map Prod.snd) ∧
    (∀ (m₁ : List (ℤ × String)) (k : ℤ) (m₂ : List (ℤ × String)),
      m = m₁ ++ (k, v) :: m₂ → (∀ q ∈ m₁, q.2 ≠ v) →
      MapConv.encode m prop attr p v =
        Except.ok (dictSet p (prop.getD attr) k)) := by
  constructor
  · constructor
    · intro h hmem
      simp only [List.mem_map] at hmem
      obtain ⟨q, hq, hqv⟩ := hmem
      rw [MapConv.encode, MapConv.reverseLookup] at h
      rcases hf : m.find? (fun q => decide (q.2 = v)) with _ | q₀
      · rw [List.find?_eq_none] at hf
        exact hf q hq (decide_eq_true hqv)
      · rw [hf] at h
        simp at h
    · intro hnv
      have hf : m.find? (fun q => decide (q.2 = v)) = Option.none := by
        rw [List.find?_eq_none]
        intro q hq
        simp only [decide_eq_true_eq]
        intro hqv
        exact hnv (List.mem_map.mpr ⟨q, hq, hqv⟩)
      rw [MapConv.encode, MapConv.reverseLookup, hf]
  · intro m₁ k m₂ hm hfirst
    subst hm
    have hf : (m₁ ++ (k, v) :: m₂).find? (fun q => decide (q.2 = v)) = some (k, v) := by
      induction m₁ with
      | nil => simp [List.find?]
      | cons q qs ih =>
        have hq : ¬(q.2 = v) := hfirst q (List.mem_cons_self q qs)
        rw [List.cons_append, List.find?_cons, decide_eq_false hq]
        exact ih fun q' hq' => hfirst q' (List.mem_cons_of_mem q hq')
    rw [MapConv.encode, MapConv.reverseLookup, hf]
    rfl

/-- C2 witness: the amended theorem applied to the map 1 to low, 2 to high,
encoding "low" resolves the first key 1. -/
theorem mapConv_encode_reverse_lookup_witness :
    MapConv.encode [((1 : ℤ), "low"), (2, "high")] Option.none "mode" [] "low" =
      Except.ok (dictSet [] "mode" 1) :=
  (mapConv_encode_reverse_lookup [((1 : ℤ), "low"), (2, "high")] Option.none "mode" []
    "low").2 [] 1 [(2, "high")] rfl (by simp)

/-- Bit-level description of the 24-bit RGB packing: bit i of the packed
value is bit i of blue for i < 8, of green for 8 <= i < 16, of red above. -/
theorem ColorRgbConv.encodeVal_testBit (r g b : ℕ) (_hr : r < 2 ^ 8) (hg : g < 2 ^ 8)
    (hb : b < 2 ^ 8) (i : ℕ) :
    (ColorRgbConv.encodeVal (r, g, b)).testBit i =
      if i < 8 then b.testBit i
      else if i < 16 then g.testBit (i - 8)
      else r.testBit (i - 16) := by
  unfold ColorRgbConv.encodeVal
  simp only [Nat.testBit_or, Nat.testBit_shiftLeft]
  by_cases h8 : i < 8
  · have h1 : ¬(i ≥ 16) := by omega
    have h2 : ¬(i ≥ 8) := by omega
    simp [h8, h1, h2]
  · by_cases h16 : i < 16
    · have h1 : ¬(i ≥ 16) := by omega
      have h2 : i ≥ 8 := by omega
      have hbi : b.testBit i = false :=
        Nat.testBit_lt_two_pow
          (lt_of_lt_of_le hb (Nat.pow_le_pow_right (by norm_num) (by omega)))
      simp [h8, h16, h1, h2, hbi]
    · have h1 : i ≥ 16 := by omega
      have h2 : i ≥ 8 := by omega
      have hbi : b.testBit i = false :=
        Nat.testBit_lt_two_pow
          (lt_of_lt_of_le hb (Nat.pow_le_pow_right (by norm_num) (by omega)))
      have hgi : g.testBit (i - 8) = false :=
        Nat.testBit_lt_two_pow
          (lt_of_lt_of_le hg (Nat.pow_le_pow_right (by norm_num) (by omega)))
      simp [h8, h16, h1, h2, hbi, hgi]

/-- C4: packing any (r,g,b) with each channel in 0..255 into the 24-bit
integer and unpacking it recovers exactly the same triple. -/
theorem colorRgb_exact_roundtrip (r g b : ℕ) (hr : r ≤ 255) (hg : g ≤ 255)
    (hb : b ≤ 255) :
    ColorRgbConv.decodeVal (ColorRgbConv.encodeVal (r, g, b)) = (r, g, b) := by
  have h256 : (2 : ℕ) ^ 8 = 256 := by norm_num
  have hr' : r < 2 ^ 8 := by omega
  have hg' : g < 2 ^ 8 := by omega
  have hb' : b < 2 ^ 8 := by omega
  have hmask : (0xFF : ℕ) = 2 ^ 8 - 1 := by norm_num
  unfold ColorRgbConv.decodeVal
  simp only [Prod.mk.injEq]
  refine ⟨?_, ?_, ?_⟩
  · apply Nat.eq_of_testBit_eq
    intro i
    rw [hmask]
    simp only [Nat.testBit_and, Nat.testBit_shiftRight, Nat.testBit_two_pow_sub_one,
      ColorRgbConv.encodeVal_testBit r g b hr' hg' hb']
    by_cases h8 : i < 8
    · rw [if_neg (by omega), if_neg (by omega)]
      simp [h8]
    · have hri : r.testBit i = false :=
        Nat.testBit_lt_two_pow
          (lt_of_lt_of_le hr' (Nat.pow_le_pow_right (by norm_num) (by omega)))
      simp [h8, hri]
  · apply Nat.eq_of_testBit_eq
    intro i
    rw [hmask]
    simp only [Nat.testBit_and, Nat.testBit_shiftRight, Nat.testBit_two_pow_sub_one,
      ColorRgbConv.encodeVal_testBit r g b hr' hg' hb']
    by_cases h8 : i < 8
    · rw [if_neg (by omega), if_pos (by omega)]
      simp [h8]
    · have hgi : g.testBit i = false :=
        Nat.testBit_lt_two_pow
          (lt_of_lt_of_le hg' (Nat.pow_le_pow_right (by norm_num) (by omega)))
      simp [h8, hgi]
  · apply Nat.eq_of_testBit_eq
    intro i
    rw [hmask]
    simp only [Nat.testBit_and, Nat.testBit_two_pow_sub_one,
      ColorRgbConv.encodeVal_testBit r g b hr' hg' hb']
    by_cases h8 : i < 8
    · simp [h8]
    · have hbi : b.testBit i = false :=
        Nat.testBit_lt_two_pow
          (lt_of_lt_of_le hb' (Nat.pow_le_pow_right (by norm_num) (by omega)))
      simp [h8, hbi]

/-- C4 witness: the spec's example triple (255, 0, 128). -/
theorem colorRgb_exact_roundtrip_witness :
    ColorRgbConv.decodeVal (ColorRgbConv.encodeVal (255, 0, 128)) = (255, 0, 128) :=
  colorRgb_exact_roundtrip 255 0 128 (by decide) (by decide) (by decide)

/-- C5: with max = 100, decoding a vendor brightness v in 0..100 and encoding
the decoded value lands within 1 of v (round-half-even in both directions, so
the round-trip need not be the identity). -/
theorem brightness_roundtrip_within_one (v : ℕ) (hv : v ≤ 100) :
    (BrightnessConv.encodeVal 100 ((BrightnessConv.decodeVal 100 (v : ℚ) : ℤ) : ℚ) -
      (v : ℤ)).natAbs ≤ 1 := by
  unfold BrightnessConv.encodeVal BrightnessConv.decodeVal
  interval_cases v <;> norm_num [pyRound]

/-- C5 witness: the round-trip at vendor brightness 37. -/
theorem brightness_roundtrip_within_one_witness :
    (BrightnessConv.encodeVal 100 ((BrightnessConv.decodeVal 100 ((37 : ℕ) : ℚ) : ℤ) : ℚ) -
      ((37 : ℕ) : ℤ)).natAbs ≤ 1 :=
  brightness_roundtrip_within_one 37 (by norm_num)

/-- C3 counterexample: the knob-spin loop iterates only over free_spin and
hold_spin; a vendor event carrying only the numbered variant 1-free_spin with
a truthy value produces no action at all, contrary to the claim. -/
theorem eventConv_knob_spin_counterexample :
    EventConv.decode "knob.spin" [] [("1-free_spin", PyVal.int 1)] = [] ∧
    dictGet (EventConv.decode "knob.spin" [] [("1-free_spin", PyVal.int 1)]) "action" =
      Option.none := by
  constructor <;> decide

/-- C3 (amended): for attr knob.spin, decode iterates the fixed ordered pair
of spin keys free_spin then hold_spin; each key whose vendor value is neither
absent, None, nor 0 writes action = that key and event = attr and merges the
vendor keys, with a later matching key overwriting an earlier one (so a firing
hold_spin always wins). -/
theorem eventConv_knob_spin_decode (p v : PyDict)
    (hnd : (v.map Prod.fst).Nodup)
    (ha : dictGet v "action" = Option.none) (he : dictGet v "event" = Option.none) :
    (EventConv.spinSkip v "free_spin" = true → EventConv.spinSkip v "hold_spin" = true →
      EventConv.decode "knob.spin" p v = p) ∧
    (EventConv.spinSkip v "hold_spin" = false →
      dictGet (EventConv.decode "knob.spin" p v) "action" = some (PyVal.str "hold_spin") ∧
      dictGet (EventConv.decode "knob.spin" p v) "event" = some (PyVal.str "knob.spin")) ∧
    (EventConv.spinSkip v "free_spin" = false → EventConv.spinSkip v "hold_spin" = true →
      dictGet (EventConv.decode "knob.spin" p v) "action" = some (PyVal.str "free_spin") ∧
      dictGet (EventConv.decode "knob.spin" p v) "event" = some (PyVal.str "knob.spin")) ∧
    ((EventConv.spinSkip v "free_spin" = false ∨ EventConv.spinSkip v "hold_spin" = false) →
      ∀ (k : String) (x : PyVal), dictGet v k = some x →
        dictGet (EventConv.decode "knob.spin" p v) k = some x) := by
  have hvA : "action" ∉ v.map Prod.fst := not_mem_of_dictGet_eq_none ha
  have hvE : "event" ∉ v.map Prod.fst := not_mem_of_dictGet_eq_none he
  have hact : ∀ (q : PyDict) (t : String),
      dictGet (dictUpdate q
        (("action", PyVal.str t) :: ("event", PyVal.str "knob.spin") :: v)) "action" =
        some (PyVal.str t) := by
    intro q t
    have h := dictGet_dictUpdate_last q [] (("event", PyVal.str "knob.spin") :: v)
      "action" (PyVal.str t) (by simp [hvA])
    simpa using h
  have hev : ∀ (q : PyDict) (t : String),
      dictGet (dictUpdate q
        (("action", PyVal.str t) :: ("event", PyVal.str "knob.spin") :: v)) "event" =
        some (PyVal.str "knob.spin") := by
    intro q t
    have h := dictGet_dictUpdate_last q [("action", PyVal.str t)] v
      "event" (PyVal.str "knob.spin") hvE
    simpa using h
  have hmerge : ∀ (q : PyDict) (t k : String) (x : PyVal), dictGet v k = some x →
      dictGet (dictUpdate q
        (("action", PyVal.str t) :: ("event", PyVal.str "knob.spin") :: v)) k = some x := by
    intro q t k x hkx
    obtain ⟨v₁, v₂, hv, hk⟩ := dictGet_eq_some_split hnd hkx
    rw [hv, ← List.cons_append, ← List.cons_append]
    exact dictGet_dictUpdate_last q _ v₂ k x hk
  refine ⟨fun h1 h2 => ?_, fun hH => ?_, fun hF hH => ?_, fun hor k x hkx => ?_⟩
  · simp [EventConv.decode, splitAttr, splitFirst, h1, h2]
  · have hdec : EventConv.decode "knob.spin" p v =
        dictUpdate
          (if EventConv.spinSkip v "free_spin" then p
           else dictUpdate p
             (("action", PyVal.str "free_spin") :: ("event", PyVal.str "knob.spin") :: v))
          (("action", PyVal.str "hold_spin") :: ("event", PyVal.str "knob.spin") :: v) := by
      simp [EventConv.decode, splitAttr, splitFirst, hH]
    rw [hdec]
    exact ⟨hact _ _, hev _ _⟩
  · have hdec : EventConv.decode "knob.spin" p v =
        dictUpdate p
          (("action", PyVal.str "free_spin") :: ("event", PyVal.str "knob.spin") :: v) := by
      simp [EventConv.decode, splitAttr, splitFirst, hF, hH]
    rw [hdec]
    exact ⟨hact _ _, hev _ _⟩
  · cases hH : EventConv.spinSkip v "hold_spin" with
    | false =>
      have hdec : EventConv.decode "knob.spin" p v =
          dictUpdate
            (if EventConv.spinSkip v "free_spin" then p
             else dictUpdate p
               (("action", PyVal.str "free_spin") :: ("event", PyVal.str "knob.spin") :: v))
            (("action", PyVal.str "hold_spin") :: ("event", PyVal.str "knob.spin") :: v) := by
        simp [EventConv.decode, splitAttr, splitFirst, hH]
      rw [hdec]
      exact hmerge _ _ _ _ hkx
    | true =>
      have hF : EventConv.spinSkip v "free_spin" = false := by
        rcases hor with h | h
        · exact h
        · rw [hH] at h; cases h
      have hdec : EventConv.decode "knob.spin" p v =
          dictUpdate p
            (("action", PyVal.str "free_spin") :: ("event", PyVal.str "knob.spin") :: v) := by
        simp [EventConv.decode, splitAttr, splitFirst, hF, hH]
      rw [hdec]
      exact hmerge _ _ _ _ hkx

/-- C3 witness: a vendor event where only hold_spin fires; the decoded payload
exposes hold_spin as the action. -/
theorem eventConv_knob_spin_decode_witness :
    dictGet (EventConv.decode "knob.spin" [] [("hold_spin", PyVal.int 2)]) "action" =
      some (PyVal.str "hold_spin") :=
  ((eventConv_knob_spin_decode [] [("hold_spin", PyVal.int 2)] (by decide) (by decide)
    (by decide)).2.1 (by decide)).1

/-- C10: in the motion/contact and panel/keyClick branches the vendor event
mapping is merged after the computed entries, so a vendor-supplied action,
event, button, or namespace key overwrites the converter-computed value. -/
theorem eventConv_vendor_keys_overwrite (p v : PyDict)
    (hnd : (v.map Prod.fst).Nodup) :
    (∀ attr, attr = "panel.click" ∨ attr = "panel.hold" ∨ attr = "panel.release" ∨
        attr = "keyClick" →
      ∀ x : PyVal,
        (dictGet v "action" = some x →
          dictGet (EventConv.decode attr p v) "action" = some x) ∧
        (dictGet v "event" = some x →
          dictGet (EventConv.decode attr p v) "event" = some x) ∧
        (dictGet v "button" = some x →
          dictGet (EventConv.decode attr p v) "button" = some x)) ∧
    (∀ x : PyVal, dictGet v "motion" = some x →
      dictGet (EventConv.decode "motion.true" p v) "motion" = some x) ∧
    (∀ x : PyVal, dictGet v "contact" = some x →
      dictGet (EventConv.decode "contact.open" p v) "contact" = some x) := by
  have hover : ∀ (q : PyDict) (l : List (String × PyVal)) (k : String) (x : PyVal),
      dictGet v k = some x → dictGet (dictUpdate q (l ++ v)) k = some x := by
    intro q l k x hkx
    obtain ⟨v₁, v₂, hv, hk⟩ := dictGet_eq_some_split hnd hkx
    rw [hv, ← List.append_assoc]
    exact dictGet_dictUpdate_last q _ v₂ k x hk
  refine ⟨?_, ?_, ?_⟩
  · intro attr hattr x
    rcases hattr with rfl | rfl | rfl | rfl <;>
      refine ⟨fun hx => ?_, fun hx => ?_, fun hx => ?_⟩ <;>
      · simp [EventConv.decode, splitAttr, splitFirst]
        exact hover p [_, _, _] _ x hx
  · intro x hx
    simp [EventConv.decode, splitAttr, splitFirst]
    exact hover p [_] _ x hx
  · intro x hx
    simp [EventConv.decode, splitAttr, splitFirst]
    exact hover p [_] _ x hx

/-- C10 witness: a vendor event that itself carries an action key; its value
survives the panel.click decode. -/
theorem eventConv_vendor_keys_overwrite_witness :
    dictGet (EventConv.decode "panel.click" [] [("action", PyVal.str "custom")]) "action" =
      some (PyVal.str "custom") :=
  ((eventConv_vendor_keys_overwrite [] [("action", PyVal.str "custom")] (by decide)).1
    "panel.click" (Or.inl rfl) (PyVal.str "custom")).1 (by decide)
